import Mathlib

/-!
Verification of `src/pythonjsonlogger/json.py` (python-json-logger).

The file shallowly embeds the module's two components and the parts of the
Python standard library they call:

* `JsonEncoder` (`JsonEncoder.default`, `JsonEncoder.format_datetime_obj`) —
  the encoding fallback chain for values the `json` library cannot natively
  represent;
* `JsonFormatter.__init__` / `JsonFormatter.jsonify_log_record` — the
  configuration resolution and the call into the serializer;
* the standard library's `json.dumps` / `json.JSONEncoder` semantics that the
  module relies on (string escaping, indent handling, the `default` hook that
  always raises `TypeError`);
* the deprecated module-level `__getattr__` shim.

Python values that reach the encoder are modelled by `PyVal` (natively
serializable shapes) and `PyObj` (objects the `json` library cannot natively
encode, split into the categories the source's `isinstance`/`type` tests
distinguish; the categories are mutually exclusive for genuine Python values
because `date`/`datetime`/`time`, `TracebackType` and `BaseException` have
incompatible C layouts and `TracebackType` cannot be subclassed).
A `str()` call on an arbitrary object may itself raise — that is modelled by
an `Option String` field (`none` = the conversion raises).
-/

/-! ## Python-level errors and values -/

/-- Errors that the embedded code can raise.  `typeError` models Python's
`TypeError` (in particular the one `json.JSONEncoder.default` always raises);
`strConversionError` models an exception raised from inside a `str(o)`
conversion; `attributeError` models `AttributeError`. -/
inductive PyErr where
  | typeError (msg : String)
  | strConversionError
  | attributeError (msg : String)
deriving DecidableEq

/-- Model of a Python `date` / `datetime` / `time` value: the only observations
the module makes of it are `o.isoformat()` and (potentially, in the fallback)
`str(o)`; both always succeed on genuine temporal values. -/
structure DateTimeLike where
  isoformat : String
  strForm : String
deriving DecidableEq

/-- Model of a Python traceback object (`istraceback(o)`): `formatTb` is the
list of strings `traceback.format_tb(o)` returns, `strForm` is `str(o)`. -/
structure TracebackObj where
  formatTb : List String
  strForm : String
deriving DecidableEq

/-- A value the `json` library cannot natively encode, split into the mutually
exclusive categories that `JsonEncoder.default` tests for:

* `dateLike`: `isinstance(o, (date, datetime, time))`;
* `traceback`: `istraceback(o)`;
* `excInst`: `type(o) == Exception or isinstance(o, Exception)` — an exception
  instance; `str(o)` calls a possibly user-defined `__str__`, so it may raise
  (`strForm = none`);
* `typeObj`: `type(o) == type` — a class object (this includes the bare
  `Exception` class itself); `str` of a class goes through `type.__repr__`
  and always succeeds;
* `other`: an object matching none of the above (custom opaque objects,
  classes with a nonstandard metaclass, ...); its `str()` may raise. -/
inductive PyObj where
  | dateLike (o : DateTimeLike)
  | traceback (o : TracebackObj)
  | excInst (strForm : Option String)
  | typeObj (strForm : String)
  | other (strForm : Option String)
deriving DecidableEq

/-- The result of `str(o)`: `some s` when the conversion returns `s`,
`none` when the object's `__str__` raises. -/
def PyObj.pyStr : PyObj → Option String
  | .dateLike o => some o.strForm
  | .traceback o => some o.strForm
  | .excInst strForm => strForm
  | .typeObj strForm => some strForm
  | .other strForm => strForm

/-- What `JsonEncoder.default` can return: the built-in chain only ever
produces a string (`format_datetime_obj`, the joined traceback, `str(o)`) or
Python `None` (serialized as JSON `null`). -/
inductive EncodedAtom where
  | str (s : String)
  | null
deriving DecidableEq

/-! ## The encoder chain (`JsonEncoder` in `json.py`) -/

/-- The standard library's `json.JSONEncoder.default` (the `super().default(o)`
call on line 45 of `json.py`): it unconditionally raises
`TypeError(f"Object of type ... is not JSON serializable")`. -/
def JSONEncoder.default (_o : PyObj) : Except PyErr EncodedAtom :=
  .error (.typeError "Object is not JSON serializable")

/-- Lines 54-60 of `json.py`: `format_datetime_obj` returns `o.isoformat()`. -/
def JsonEncoder.format_datetime_obj (o : DateTimeLike) : String :=
  o.isoformat

/-- An unguarded `str(o)` expression: returns the string form, or propagates
the exception the conversion raises. -/
def pyStrRaise (o : PyObj) : Except PyErr EncodedAtom :=
  match o.pyStr with
  | some s => .ok (.str s)
  | Option.none => .error .strConversionError

/-- Lines 33-52 of `json.py`, with the datetime-formatting hook abstracted to
model method dispatch on `self.format_datetime_obj` (a subclass can override
just that method):

    def default(self, o):
        if isinstance(o, (date, datetime, time)):
            return self.format_datetime_obj(o)
        if istraceback(o):
            return "".join(traceback.format_tb(o)).strip()
        if type(o) == Exception or isinstance(o, Exception) or type(o) == type:
            return str(o)
        try:
            return super().default(o)
        except TypeError:
            try:
                return str(o)
            except Exception:
                return None

(Python's `str.strip()` with no argument is modelled by `String.trim`; both
remove the surrounding blanks, tabs, newlines and carriage returns that
traceback text can carry.) -/
def JsonEncoder.defaultWith (fmt : DateTimeLike → String) (o : PyObj) :
    Except PyErr EncodedAtom :=
  match o with
  | .dateLike d => .ok (.str (fmt d))
  | .traceback t => .ok (.str (String.join t.formatTb).trim)
  | .excInst _ => pyStrRaise o
  | .typeObj _ => pyStrRaise o
  | .other _ =>
    match JSONEncoder.default o with
    | .ok v => .ok v
    | .error (.typeError _) =>
      match o.pyStr with
      | some s => .ok (.str s)
      | Option.none => .ok .null
    | .error e => .error e

/-- The `default` method of the concrete `JsonEncoder` class (no override of
`format_datetime_obj`). -/
def JsonEncoder.default (o : PyObj) : Except PyErr EncodedAtom :=
  JsonEncoder.defaultWith JsonEncoder.format_datetime_obj o

/-! ## The chain as an ordered rule list (for the precedence claim) -/

/-- One resolution rule of the fallback chain: `none` means "not applicable,
try the next rule"; `some r` means the rule fires with outcome `r`. -/
def EncoderRule : Type :=
  PyObj → Option (Except PyErr EncodedAtom)

/-- Rule 1 — temporal values render through `format_datetime_obj`. -/
def ruleTemporal : EncoderRule := fun o =>
  match o with
  | .dateLike d => some (.ok (.str (JsonEncoder.format_datetime_obj d)))
  | _ => Option.none

/-- Rule 2 — traceback objects render as the joined, trimmed `format_tb`. -/
def ruleTraceback : EncoderRule := fun o =>
  match o with
  | .traceback t => some (.ok (.str (String.join t.formatTb).trim))
  | _ => Option.none

/-- Rule 3 — exception instances and type objects render as `str(o)`. -/
def ruleExcType : EncoderRule := fun o =>
  match o with
  | .excInst _ => some (pyStrRaise o)
  | .typeObj _ => some (pyStrRaise o)
  | _ => Option.none

/-- Rule 4 — delegate to the underlying library's extension point; a
`TypeError` from it means "cannot encode", i.e. fall through to rule 5. -/
def ruleDelegate : EncoderRule := fun o =>
  match JSONEncoder.default o with
  | .ok v => some (.ok v)
  | .error (.typeError _) => Option.none
  | .error e => some (.error e)

/-- Rule 5 — last resort: `str(o)`, and on any exception from the conversion,
Python `None` (JSON `null`). -/
def ruleStringify : EncoderRule := fun o =>
  some (match o.pyStr with
    | some s => .ok (.str s)
    | Option.none => .ok .null)

/-- Apply the first applicable rule of an ordered rule list; a value matched
by an earlier rule never reaches a later one. -/
def applyFirst (rules : List EncoderRule) (o : PyObj) : Except PyErr EncodedAtom :=
  match rules with
  | [] => .error (.typeError "no applicable rule")
  | r :: rs =>
    match r o with
    | some res => res
    | Option.none => applyFirst rs o

/-- The chain of `JsonEncoder.default` in source order. -/
def encoderChain : List EncoderRule :=
  [ruleTemporal, ruleTraceback, ruleExcType, ruleDelegate, ruleStringify]

/-! ## Python values reaching `json.dumps` -/

/-- A circular-reference-free Python value as handed to `json.dumps`: the
natively serializable shapes (`str`, `int`, `bool`, `None`, `list`, `dict`
with text keys — the record's keys are text) plus `obj` for any value the
library cannot natively encode, which `json.dumps` hands to the encoder's
`default` hook. -/
inductive PyVal where
  | str (s : String)
  | int (n : Int)
  | bool (b : Bool)
  | pyNone
  | list (xs : List PyVal)
  | dict (kvs : List (String × PyVal))
  | obj (o : PyObj)

/-! ## String escaping (`json.encoder.py_encode_basestring[_ascii]`) -/

/-- Lowercase hexadecimal digit, as used by the `\uXXXX` escapes. -/
def hexDigitChar (n : Nat) : Char :=
  if n < 10 then Char.ofNat (48 + n) else Char.ofNat (87 + n % 16)

/-- Four lowercase hex digits (`'\u%04x' % n`). -/
def hex4 (n : Nat) : String :=
  String.mk [hexDigitChar (n / 4096 % 16), hexDigitChar (n / 256 % 16),
    hexDigitChar (n / 16 % 16), hexDigitChar (n % 16)]

/-- Escape for a control character (`< 0x20`): the named escapes of the
library's `ESCAPE_DCT`, `\uXXXX` otherwise. -/
def escapeControl (c : Char) : String :=
  if c = '\n' then "\\n"
  else if c = '\t' then "\\t"
  else if c = '\r' then "\\r"
  else if c.toNat = 8 then "\\b"
  else if c.toNat = 12 then "\\f"
  else "\\u" ++ hex4 c.toNat

/-- Per-character escape with `ensure_ascii=False`
(`json.encoder.py_encode_basestring`): only `"`, `\` and control characters
are escaped; everything else — including non-ASCII — is emitted literally. -/
def escapeCharRaw (c : Char) : String :=
  if c = '"' then "\\\""
  else if c = '\\' then "\\\\"
  else if c.toNat < 32 then escapeControl c
  else String.singleton c

/-- Per-character escape with `ensure_ascii=True`
(`json.encoder.py_encode_basestring_ascii`): additionally every character
outside `0x20..0x7e` becomes `\uXXXX` (a surrogate pair above `0xffff`). -/
def escapeCharAscii (c : Char) : String :=
  if c = '"' then "\\\""
  else if c = '\\' then "\\\\"
  else if c.toNat < 32 then escapeControl c
  else if c.toNat < 127 then String.singleton c
  else if c.toNat ≤ 65535 then "\\u" ++ hex4 c.toNat
  else
    "\\u" ++ hex4 (55296 + (c.toNat - 65536) / 1024) ++
    "\\u" ++ hex4 (56320 + (c.toNat - 65536) % 1024)

/-- Concatenation of a per-character escape over a character list. -/
def escapeChars (esc : Char → String) : List Char → String
  | [] => ""
  | c :: cs => esc c ++ escapeChars esc cs

/-- A JSON string literal for `s`, under the given `ensure_ascii` flag. -/
def encodeString (ensure_ascii : Bool) (s : String) : String :=
  "\"" ++ escapeChars (if ensure_ascii then escapeCharAscii else escapeCharRaw)
    s.data ++ "\""

/-! ## `json.dumps` as token emission plus whitespace rendering

`json.dumps` iterates the value and yields string chunks
(`json.encoder._make_iterencode`); the output is their concatenation.  We
model the chunk stream in two stages: `encToksVal` produces the stream of
JSON tokens (which is independent of the indent setting), and `renderToks`
interleaves the separator/indent whitespace exactly as the library does —
separators `(', ', ': ')` when `indent is None`, `(',', ': ')` plus
newline-and-indent otherwise, and `[]` / `{}` for empty containers.  The
concatenation equals the library's output string. -/

/-- One JSON token of the output.  `emptyArr` / `emptyObj` stand for the
`'[]'` / `'{}'` chunks the library yields for empty containers (it
special-cases them, so no indent whitespace is placed inside). -/
inductive JTok where
  | lbrace | rbrace | lbrack | rbrack | comma | colon
  | emptyArr | emptyObj
  | lit (s : String)
deriving DecidableEq

/-- The bare text of a token (no separator whitespace). -/
def JTok.text : JTok → String
  | .lbrace => "\x7b"
  | .rbrace => "\x7d"
  | .lbrack => "["
  | .rbrack => "]"
  | .comma => ","
  | .colon => ":"
  | .emptyArr => "[]"
  | .emptyObj => "\x7b\x7d"
  | .lit s => s

/-- The lexer tokens a single output token reads back as. -/
def JTok.lexemes : JTok → List String
  | .lbrace => ["\x7b"]
  | .rbrace => ["\x7d"]
  | .lbrack => ["["]
  | .rbrack => ["]"]
  | .comma => [","]
  | .colon => [":"]
  | .emptyArr => ["[", "]"]
  | .emptyObj => ["\x7b", "\x7d"]
  | .lit s => [s]

mutual

/-- Token stream of one value.  An `obj` value is passed to
`JsonEncoder.default` (this models the default configuration, where the
`JsonEncoder` class is installed and no `default` hook is given); the
returned atom — always a string or `None` — is then encoded in its place.
An exception escaping the hook propagates out of `json.dumps`. -/
def encToksVal (ensure_ascii : Bool) : PyVal → Except PyErr (List JTok)
  | .str s => .ok [.lit (encodeString ensure_ascii s)]
  | .int n => .ok [.lit (toString n)]
  | .bool b => .ok [.lit (if b then "true" else "false")]
  | .pyNone => .ok [.lit "null"]
  | .list [] => .ok [.emptyArr]
  | .list (x :: xs) => do
    pure ([.lbrack] ++ (← encToksItems ensure_ascii (x :: xs)) ++ [.rbrack])
  | .dict [] => .ok [.emptyObj]
  | .dict (kv :: kvs) => do
    pure ([.lbrace] ++ (← encToksEntries ensure_ascii (kv :: kvs)) ++ [.rbrace])
  | .obj o =>
    match JsonEncoder.default o with
    | .ok (.str s) => .ok [.lit (encodeString ensure_ascii s)]
    | .ok .null => .ok [.lit "null"]
    | .error e => .error e

/-- Token stream of the comma-separated items of a list. -/
def encToksItems (ensure_ascii : Bool) : List PyVal → Except PyErr (List JTok)
  | [] => .ok []
  | [x] => encToksVal ensure_ascii x
  | x :: xs => do
    pure ((← encToksVal ensure_ascii x) ++ [JTok.comma] ++
      (← encToksItems ensure_ascii xs))

/-- Token stream of the comma-separated `key: value` entries of a dict. -/
def encToksEntries (ensure_ascii : Bool) : List (String × PyVal) → Except PyErr (List JTok)
  | [] => .ok []
  | [(k, v)] => do
    pure ([JTok.lit (encodeString ensure_ascii k), JTok.colon] ++
      (← encToksVal ensure_ascii v))
  | (k, v) :: rest => do
    pure ([JTok.lit (encodeString ensure_ascii k), JTok.colon] ++
      (← encToksVal ensure_ascii v) ++ [JTok.comma] ++
      (← encToksEntries ensure_ascii rest))

end

/-- String repetition, `s * n` in Python. -/
def repeatStr (s : String) : Nat → String
  | 0 => ""
  | n + 1 => s ++ repeatStr s n

/-- The newline-plus-indentation the library emits at nesting depth `d`
(`'\n' + indent * _current_indent_level`); nothing in compact mode. -/
def nlIndent (ind : Option String) (d : Nat) : String :=
  match ind with
  | Option.none => ""
  | some s => "\n" ++ repeatStr s d

/-- Interleave separator whitespace with the token stream, at current
nesting depth `d`: empty containers print as `[]` / `{}`; after an opening
bracket and after every comma the newline-indent of the inner depth follows;
the closing bracket is preceded by the newline-indent of the outer depth;
the key separator is `': '` in both modes, the item separator `', '` in
compact mode and `','` plus newline-indent otherwise. -/
def renderToks (ind : Option String) : Nat → List JTok → String
  | _, [] => ""
  | d, .emptyArr :: ts => "[]" ++ renderToks ind d ts
  | d, .emptyObj :: ts => "\x7b\x7d" ++ renderToks ind d ts
  | d, .lbrack :: ts => "[" ++ nlIndent ind (d + 1) ++ renderToks ind (d + 1) ts
  | d, .lbrace :: ts => "\x7b" ++ nlIndent ind (d + 1) ++ renderToks ind (d + 1) ts
  | d, .rbrack :: ts => nlIndent ind (d - 1) ++ "]" ++ renderToks ind (d - 1) ts
  | d, .rbrace :: ts => nlIndent ind (d - 1) ++ "\x7d" ++ renderToks ind (d - 1) ts
  | d, .comma :: ts =>
    (match ind with
      | Option.none => ", "
      | some _ => "," ++ nlIndent ind d) ++ renderToks ind d ts
  | d, .colon :: ts => ": " ++ renderToks ind d ts
  | d, .lit s :: ts => s ++ renderToks ind d ts

/-- The `indent` argument of `json.dumps`: `None`, an integer, or a string. -/
inductive JsonIndent where
  | ofInt (n : Int)
  | ofStr (s : String)
deriving DecidableEq

/-- The indent string the library derives from the argument
(an integer `n` becomes `' ' * n`, so a nonpositive one becomes `''`). -/
def JsonIndent.toIndentString : JsonIndent → String
  | .ofInt n => repeatStr " " n.toNat
  | .ofStr s => s

/-- The standard library's `json.dumps(value, cls=JsonEncoder, default=None,
indent=indent, ensure_ascii=ensure_ascii)`: the concatenation of the token
stream with the separator/indent whitespace interleaved, or the exception
the encoder hook let escape. -/
def dumps (v : PyVal) (ensure_ascii : Bool) (indent : Option JsonIndent) :
    Except PyErr String :=
  (encToksVal ensure_ascii v).map
    (renderToks (indent.map JsonIndent.toIndentString) 0)

/-! ## `JsonFormatter` configuration (`__init__` / `jsonify_log_record`) -/

/-- A `json_default` argument: some caller-supplied callable (identified
abstractly — its behavior is the caller's code). -/
structure DefaultArg where
  id : Nat
deriving DecidableEq

/-- A `json_encoder` argument: either the module's own `JsonEncoder` class or
some caller-supplied encoder class. -/
inductive EncoderArg where
  | jsonEncoderClass
  | custom (id : Nat)
deriving DecidableEq

/-- A `json_serializer` argument: `json.dumps` (the signature's default) or a
caller-supplied callable. -/
inductive SerializerArg where
  | jsonDumps
  | custom (id : Nat)
deriving DecidableEq

/-- The attributes `JsonFormatter.__init__` stores (the state read by
`jsonify_log_record`). -/
structure JsonFormatterState where
  json_default : Option DefaultArg
  json_encoder : Option EncoderArg
  json_serializer : SerializerArg
  json_indent : Option JsonIndent
  json_ensure_ascii : Bool
deriving DecidableEq

/-- Modelled from its use in `json.py`: `core.str_to_object` resolves a
dotted-string import name to the named object and returns any non-string
argument (including `None`) unchanged.  The arguments modelled here are
already objects or `None`, so it is the identity. -/
def str_to_object (x : α) : α :=
  x

/-- Lines 66-95 of `json.py` — `JsonFormatter.__init__`: store the five
options (through `core.str_to_object`), then

    if not self.json_encoder and not self.json_default:
        self.json_encoder = JsonEncoder

(`None` is the only falsy value an absent option takes here). -/
def JsonFormatter.init (json_default : Option DefaultArg)
    (json_encoder : Option EncoderArg) (json_serializer : SerializerArg)
    (json_indent : Option JsonIndent) (json_ensure_ascii : Bool) :
    JsonFormatterState :=
  let s : JsonFormatterState :=
    { json_default := str_to_object json_default
      json_encoder := str_to_object json_encoder
      json_serializer := str_to_object json_serializer
      json_indent := json_indent
      json_ensure_ascii := json_ensure_ascii }
  if s.json_encoder.isNone && s.json_default.isNone then
    { s with json_encoder := some EncoderArg.jsonEncoderClass }
  else s

/-- A `JsonFormatter` constructed with every `json_*` keyword argument left at
its default from the signature (`json_default=None`, `json_encoder=None`,
`json_serializer=json.dumps`, `json_indent=None`, `json_ensure_ascii=True`). -/
def JsonFormatter.mkDefault : JsonFormatterState :=
  JsonFormatter.init Option.none Option.none SerializerArg.jsonDumps
    Option.none true

/-- The argument tuple `jsonify_log_record` hands to the configured
serializer. -/
structure SerializerCall where
  log_record : PyVal
  default : Option DefaultArg
  cls : Option EncoderArg
  indent : Option JsonIndent
  ensure_ascii : Bool

/-- Lines 97-104 of `json.py` — `jsonify_log_record` calls
`self.json_serializer(log_record, default=self.json_default,
cls=self.json_encoder, indent=self.json_indent,
ensure_ascii=self.json_ensure_ascii)`; this def is the argument tuple of that
call, each option passed through unmodified. -/
def JsonFormatter.jsonify_log_record (self : JsonFormatterState)
    (log_record : PyVal) : SerializerCall :=
  { log_record := log_record
    default := self.json_default
    cls := self.json_encoder
    indent := self.json_indent
    ensure_ascii := self.json_ensure_ascii }

/-! ## The deprecated module attribute shim (module `__getattr__`) -/

/-- The value of the module's `__name__`. -/
def jsonModuleName : String :=
  "pythonjsonlogger.json"

/-- A deprecation warning emitted via `warnings.warn(msg, DeprecationWarning)`. -/
structure DeprecationWarning where
  msg : String
deriving DecidableEq

/-- Lines 109-116 of `json.py` — the module-level `__getattr__` (invoked by
Python exactly for attribute names the module does not otherwise define):
for `"RESERVED_ATTRS"` it warns and returns `core.RESERVED_ATTRS` (the
constant at its new canonical location, passed in here as
`core_RESERVED_ATTRS` since the `core` module is a separate component);
for every other name it raises
`AttributeError(f"module [__name__] has no attribute [name]")`. -/
def moduleGetattr (core_RESERVED_ATTRS : α) (name : String) :
    Except PyErr (α × List DeprecationWarning) :=
  if name = "RESERVED_ATTRS" then
    .ok (core_RESERVED_ATTRS,
      [⟨"RESERVED_ATTRS has been moved to pythonjsonlogger.core"⟩])
  else
    .error (.attributeError
      ("module " ++ jsonModuleName ++ " has no attribute " ++ name))

/-! ## A JSON lexer (to state "re-parses to the same structure") -/

/-- JSON inter-token whitespace. -/
def isJsonWs (c : Char) : Bool :=
  c = ' ' || c = '\t' || c = '\n' || c = '\r'

/-- The six single-character structural tokens. -/
def isJsonDelim (c : Char) : Bool :=
  c = '{' || c = '}' || c = '[' || c = ']' || c = ',' || c = ':'

/-- Consume a string literal body after an opening quote, up to and including
the closing quote; a backslash escapes the next character. -/
def takeStringLit : List Char → List Char × List Char
  | [] => ([], [])
  | c :: cs =>
    if c = '\\' then
      match cs with
      | [] => (['\\'], [])
      | d :: ds =>
        let (l, r) := takeStringLit ds
        ('\\' :: d :: l, r)
    else if c = '"' then (['"'], cs)
    else
      let (l, r) := takeStringLit cs
      (c :: l, r)

/-- Consume a maximal run of atom characters (anything that is not
whitespace, a structural character or a quote). -/
def takeAtom : List Char → List Char × List Char
  | [] => ([], [])
  | c :: cs =>
    if isJsonWs c || isJsonDelim c || c = '"' then ([], c :: cs)
    else
      let (l, r) := takeAtom cs
      (c :: l, r)

theorem takeStringLit_rest_length (cs : List Char) :
    (takeStringLit cs).2.length ≤ cs.length := by
  induction cs using takeStringLit.induct with
  | case1 => simp [takeStringLit]
  | case2 => simp [takeStringLit]
  | case3 d ds l r heq ih =>
    rw [takeStringLit.eq_def]
    rw [heq] at ih
    simp [heq] at ih ⊢
    omega
  | case4 ds h =>
    rw [takeStringLit.eq_def]
    simp
  | case5 d ds hb hq l r heq ih =>
    rw [takeStringLit.eq_def]
    rw [heq] at ih
    simp [hb, hq, heq] at ih ⊢
    omega

theorem takeAtom_rest_length (cs : List Char) :
    (takeAtom cs).2.length ≤ cs.length := by
  induction cs using takeAtom.induct <;> simp_all [takeAtom]
  omega

/-- Lex a JSON text into its token spellings, discarding inter-token
whitespace: structural characters are single tokens, a quote opens a string
literal token, anything else begins an atom token (number, `true`, `false`,
`null`). -/
def lexJsonAux : List Char → List String
  | [] => []
  | c :: cs =>
    if isJsonWs c then lexJsonAux cs
    else if isJsonDelim c then String.singleton c :: lexJsonAux cs
    else if c = '"' then
      String.mk ('"' :: (takeStringLit cs).1) :: lexJsonAux (takeStringLit cs).2
    else
      String.mk (c :: (takeAtom cs).1) :: lexJsonAux (takeAtom cs).2
termination_by cs => cs.length
decreasing_by
  all_goals simp
  all_goals first
    | omega
    | exact Nat.lt_succ_of_le (takeStringLit_rest_length _)
    | exact Nat.lt_succ_of_le (takeAtom_rest_length _)

/-- The token spellings of a JSON document, whitespace discarded. -/
def lexJson (s : String) : List String :=
  lexJsonAux s.data

/-! ## Sanity checks of the embedding on concrete inputs

The expected strings below are the exact outputs of CPython's `json.dumps`
on the corresponding inputs. -/

example : JsonEncoder.default (.excInst (some "boom")) = .ok (.str "boom") := rfl
example : JsonEncoder.default (.excInst Option.none) = .error .strConversionError := rfl
example : JsonEncoder.default (.other Option.none) = .ok .null := rfl

example : encodeString true "héllo" = "\"h\\u00e9llo\"" := rfl
example : encodeString false "héllo" = "\"héllo\"" := rfl
example : encodeString true "a\"b\\c\nd" = "\"a\\\"b\\\\c\\nd\"" := rfl
example : encodeString true "𝄞" = "\"\\ud834\\udd1e\"" := rfl

example : dumps (.dict [("msg", .str "héllo")]) true Option.none
    = .ok "\x7b\"msg\": \"h\\u00e9llo\"\x7d" := rfl
example : dumps (.dict [("msg", .str "héllo")]) false Option.none
    = .ok "\x7b\"msg\": \"héllo\"\x7d" := rfl
example : dumps (.list [.int 1, .list [.int 2], .list []]) true
      (some (.ofInt 2))
    = .ok "[\n  1,\n  [\n    2\n  ],\n  []\n]" := rfl
example : dumps (.dict [("a", .dict [("b", .pyNone)])]) true (some (.ofInt 2))
    = .ok "\x7b\n  \"a\": \x7b\n    \"b\": null\n  \x7d\n\x7d" := rfl
example : dumps (.dict [("k", .obj (.other Option.none))]) true Option.none
    = .ok "\x7b\"k\": null\x7d" := rfl

example : lexJson "\x7b\"a b\": [1, 2]\x7d"
    = ["\x7b", "\"a b\"", ":", "[", "1", ",", "2", "]", "\x7d"] := by
  simp [lexJson, lexJsonAux, takeStringLit, takeAtom, isJsonWs, isJsonDelim]
  decide

/-! ## Predicates used to state the claims -/

/-- A `PyObj` whose handling by the chain cannot raise: the only branch of
`JsonEncoder.default` that can let an exception escape is line 42's unguarded
`str(o)` on an exception instance, so the condition is that every exception
instance's own textual conversion succeeds. -/
def PyObj.encodeSafe : PyObj → Bool
  | .excInst strForm => strForm.isSome
  | _ => true

mutual

/-- Every object value nested in the record is `PyObj.encodeSafe`. -/
def PyVal.encodeSafe : PyVal → Bool
  | .str _ => true
  | .int _ => true
  | .bool _ => true
  | .pyNone => true
  | .list xs => PyVal.encodeSafeItems xs
  | .dict kvs => PyVal.encodeSafeEntries kvs
  | .obj o => o.encodeSafe

def PyVal.encodeSafeItems : List PyVal → Bool
  | [] => true
  | x :: xs => x.encodeSafe && PyVal.encodeSafeItems xs

def PyVal.encodeSafeEntries : List (String × PyVal) → Bool
  | [] => true
  | (_, v) :: kvs => v.encodeSafe && PyVal.encodeSafeEntries kvs

end

/-- A character that continues an atom token (not whitespace, not structural,
not a quote). -/
def atomCharOk (c : Char) : Bool :=
  !(isJsonWs c || isJsonDelim c || c = '"')

/-- A well-formed fragment of a string literal body: every backslash escapes
the following character and no unescaped quote occurs. -/
def strChunkOk : List Char → Bool
  | [] => true
  | c :: cs =>
    if c = '\\' then
      match cs with
      | [] => false
      | _ :: ds => strChunkOk ds
    else if c = '"' then false
    else strChunkOk cs

/-- A well-formed string literal body: a well-formed fragment followed by a
single closing quote ending the literal. -/
def strBodyOk : List Char → Bool
  | [] => false
  | c :: cs =>
    if c = '\\' then
      match cs with
      | [] => false
      | _ :: ds => strBodyOk ds
    else if c = '"' then cs.isEmpty
    else strBodyOk cs

/-- A character list that spells one lexer token: either a well-formed string
literal, or a nonempty run of atom characters. -/
def litCharsOk : List Char → Bool
  | [] => false
  | c :: cs => if c = '"' then strBodyOk cs else (c :: cs).all atomCharOk

/-- A `lit` token whose spelling the lexer recovers intact. -/
def litTokOk (s : String) : Bool :=
  litCharsOk s.data

/-- All `lit` tokens of a stream are well formed. -/
def litsOk (ts : List JTok) : Bool :=
  ts.all fun t =>
    match t with
    | .lit s => litTokOk s
    | _ => true

/-- Whether a token is a literal (as opposed to a structural token). -/
def isLitTok : JTok → Bool
  | .lit _ => true
  | _ => false

/-- Two tokens that may be adjacent in a stream: not both literals (the token
streams `json.dumps` produces always separate literals by a structural token,
so two atoms can never fuse in the rendered text). -/
def SepOk (x y : JTok) : Prop :=
  ¬(isLitTok x = true ∧ isLitTok y = true)

/-- No two adjacent `lit` tokens anywhere in the stream. -/
def noAdjLits (ts : List JTok) : Prop :=
  List.Chain' SepOk ts

/-- Every character of the string is ASCII. -/
def asciiStr (s : String) : Bool :=
  s.data.all fun c => decide (c.toNat < 128)

/-- All `lit` tokens of a stream are ASCII-only. -/
def litsAscii (ts : List JTok) : Bool :=
  ts.all fun t =>
    match t with
    | .lit s => asciiStr s
    | _ => true

/-- An indent setting whose indent string consists of JSON whitespace only —
true for every integer indent (which the library turns into spaces), and for
string indents made of blanks/tabs/newlines. -/
def indentWsOk : Option JsonIndent → Bool
  | Option.none => true
  | some i => i.toIndentString.data.all isJsonWs

/-- An indent string (already converted from the `indent` argument) that
consists of JSON whitespace only; `none` is the compact mode. -/
def indentWsStrOk : Option String → Bool
  | Option.none => true
  | some s => s.data.all isJsonWs

/-- The character list either ends the input or starts with a character that
terminates an atom run. -/
def stopsRun : List Char → Bool
  | [] => true
  | c :: _ => isJsonWs c || isJsonDelim c || c = '"'

/-! ## Lexer step equations -/

theorem takeStringLit_quote (ds : List Char) :
    takeStringLit ('"' :: ds) = (['"'], ds) := by
  rw [takeStringLit.eq_def]
  simp

theorem takeStringLit_esc (d : Char) (ds : List Char) :
    takeStringLit ('\\' :: d :: ds) =
      ('\\' :: d :: (takeStringLit ds).1, (takeStringLit ds).2) := by
  rw [takeStringLit.eq_def]
  simp

theorem takeStringLit_plain (c : Char) (ds : List Char) (hb : ¬c = '\\')
    (hq : ¬c = '"') :
    takeStringLit (c :: ds) = (c :: (takeStringLit ds).1, (takeStringLit ds).2) := by
  rw [takeStringLit.eq_def]
  simp [hb, hq]

theorem strBodyOk_esc (d : Char) (ds : List Char) :
    strBodyOk ('\\' :: d :: ds) = strBodyOk ds := by
  rw [strBodyOk.eq_def]
  simp

theorem strBodyOk_quote (ds : List Char) :
    strBodyOk ('"' :: ds) = ds.isEmpty := by
  rw [strBodyOk.eq_def]
  simp

theorem strBodyOk_plain (c : Char) (ds : List Char) (hb : ¬c = '\\')
    (hq : ¬c = '"') :
    strBodyOk (c :: ds) = strBodyOk ds := by
  rw [strBodyOk.eq_def]
  simp [hb, hq]

theorem strChunkOk_esc (d : Char) (ds : List Char) :
    strChunkOk ('\\' :: d :: ds) = strChunkOk ds := by
  rw [strChunkOk.eq_def]
  simp

theorem strChunkOk_plain (c : Char) (ds : List Char) (hb : ¬c = '\\')
    (hq : ¬c = '"') :
    strChunkOk (c :: ds) = strChunkOk ds := by
  rw [strChunkOk.eq_def]
  simp [hb, hq]

theorem takeAtom_stop (c : Char) (cs : List Char) (h : stopsRun (c :: cs) = true) :
    takeAtom (c :: cs) = ([], c :: cs) := by
  rw [takeAtom.eq_def]
  simp only [stopsRun] at h
  simp [h]

theorem takeAtom_cont (c : Char) (cs : List Char) (h : atomCharOk c = true) :
    takeAtom (c :: cs) = (c :: (takeAtom cs).1, (takeAtom cs).2) := by
  rw [takeAtom.eq_def]
  simp only [atomCharOk, Bool.not_eq_true'] at h
  simp [h]

/-! ## Lexer lemmas -/

theorem isJsonDelim_not_ws (c : Char) (h : isJsonDelim c = true) :
    isJsonWs c = false := by
  simp only [isJsonDelim, Bool.or_eq_true, decide_eq_true_eq] at h
  rcases h with ((((rfl | rfl) | rfl) | rfl) | rfl) | rfl <;> rfl

theorem isJsonDelim_not_quote (c : Char) (h : isJsonDelim c = true) :
    ¬c = '"' := by
  simp only [isJsonDelim, Bool.or_eq_true, decide_eq_true_eq] at h
  rcases h with ((((rfl | rfl) | rfl) | rfl) | rfl) | rfl <;> simp

theorem lexJsonAux_ws (c : Char) (cs : List Char) (h : isJsonWs c = true) :
    lexJsonAux (c :: cs) = lexJsonAux cs := by
  rw [lexJsonAux]
  simp [h]

theorem lexJsonAux_ws_prefix (l r : List Char) (h : l.all isJsonWs = true) :
    lexJsonAux (l ++ r) = lexJsonAux r := by
  induction l with
  | nil => rfl
  | cons c cs ih =>
    simp only [List.all_cons, Bool.and_eq_true] at h
    rw [List.cons_append, lexJsonAux_ws c _ h.1, ih h.2]

theorem lexJsonAux_delim (c : Char) (cs : List Char) (h : isJsonDelim c = true) :
    lexJsonAux (c :: cs) = String.singleton c :: lexJsonAux cs := by
  rw [lexJsonAux]
  simp [h, isJsonDelim_not_ws c h]

theorem takeStringLit_body (body r : List Char) (h : strBodyOk body = true) :
    takeStringLit (body ++ r) = (body, r) := by
  induction body using strBodyOk.induct with
  | case1 => simp [strBodyOk] at h
  | case2 => simp [strBodyOk] at h
  | case3 d ds ih =>
    rw [strBodyOk_esc] at h
    simp [takeStringLit_esc, ih h]
  | case4 ds hne =>
    rw [strBodyOk_quote] at h
    simp only [List.isEmpty_iff] at h
    subst h
    simp [takeStringLit_quote]
  | case5 d ds hb hq ih =>
    rw [strBodyOk_plain d ds hb hq] at h
    simp [takeStringLit_plain d _ hb hq, ih h]

theorem lexJsonAux_strLit (body r : List Char) (h : strBodyOk body = true) :
    lexJsonAux ('"' :: (body ++ r)) = String.mk ('"' :: body) :: lexJsonAux r := by
  rw [lexJsonAux]
  simp [takeStringLit_body body r h, isJsonWs, isJsonDelim]

theorem takeAtom_run (l r : List Char) (hl : l.all atomCharOk = true)
    (hr : stopsRun r = true) :
    takeAtom (l ++ r) = (l, r) := by
  induction l with
  | nil =>
    cases r with
    | nil => rfl
    | cons c cs => simpa using takeAtom_stop c cs hr
  | cons c cs ih =>
    simp only [List.all_cons, Bool.and_eq_true] at hl
    simp [takeAtom_cont c _ hl.1, ih hl.2]

theorem lexJsonAux_atom (c : Char) (l r : List Char) (hc : atomCharOk c = true)
    (hl : l.all atomCharOk = true) (hr : stopsRun r = true) :
    lexJsonAux (c :: (l ++ r)) = String.mk (c :: l) :: lexJsonAux r := by
  rw [lexJsonAux]
  have hc' := hc
  simp only [atomCharOk, Bool.not_eq_true', Bool.or_eq_false_iff,
    decide_eq_false_iff_not] at hc'
  simp [hc'.1, hc'.2, takeAtom_run l r hl hr]

/-! ## Well-formedness of the emitted string literals -/

theorem strChunkOk_quote (ds : List Char) : strChunkOk ('"' :: ds) = false := by
  rw [strChunkOk.eq_def]
  simp

theorem strChunkOk_append (a b : List Char) (ha : strChunkOk a = true) :
    strChunkOk (a ++ b) = strChunkOk b := by
  induction a using strChunkOk.induct with
  | case1 => rfl
  | case2 => simp [strChunkOk] at ha
  | case3 d ds ih =>
    rw [strChunkOk_esc] at ha
    simpa [strChunkOk_esc] using ih ha
  | case4 ds hne =>
    rw [strChunkOk_quote] at ha
    exact absurd ha (by simp)
  | case5 d ds hb hq ih =>
    rw [strChunkOk_plain d ds hb hq] at ha
    simpa [strChunkOk_plain d _ hb hq] using ih ha

theorem strBodyOk_chunk_append (a b : List Char) (ha : strChunkOk a = true)
    (hb : strBodyOk b = true) : strBodyOk (a ++ b) = true := by
  induction a using strChunkOk.induct with
  | case1 => simpa
  | case2 => simp [strChunkOk] at ha
  | case3 d ds ih =>
    rw [strChunkOk_esc] at ha
    simpa [strBodyOk_esc] using ih ha
  | case4 ds hne =>
    rw [strChunkOk_quote] at ha
    exact absurd ha (by simp)
  | case5 d ds hbs hq ih =>
    rw [strChunkOk_plain d ds hbs hq] at ha
    simpa [strBodyOk_plain d _ hbs hq] using ih ha

theorem hexDigitChar_plain (m : Nat) (h : m < 16) :
    (¬hexDigitChar m = '\\') ∧ (¬hexDigitChar m = '"') ∧
      (hexDigitChar m).toNat < 128 := by
  interval_cases m <;> exact ⟨by decide, by decide, by decide⟩

theorem strChunkOk_hex4 (n : Nat) (b : List Char) :
    strChunkOk ((hex4 n).data ++ b) = strChunkOk b := by
  have h1 := hexDigitChar_plain (n / 4096 % 16) (Nat.mod_lt _ (by norm_num))
  have h2 := hexDigitChar_plain (n / 256 % 16) (Nat.mod_lt _ (by norm_num))
  have h3 := hexDigitChar_plain (n / 16 % 16) (Nat.mod_lt _ (by norm_num))
  have h4 := hexDigitChar_plain (n % 16) (Nat.mod_lt _ (by norm_num))
  simp [hex4, strChunkOk_plain _ _ h1.1 h1.2.1, strChunkOk_plain _ _ h2.1 h2.2.1,
    strChunkOk_plain _ _ h3.1 h3.2.1, strChunkOk_plain _ _ h4.1 h4.2.1]

theorem strChunkOk_escapeControl (c : Char) (b : List Char) :
    strChunkOk ((escapeControl c).data ++ b) = strChunkOk b := by
  unfold escapeControl
  split_ifs <;>
    simp [strChunkOk_esc, String.data_append, strChunkOk_hex4]

theorem strChunkOk_escapeCharAscii (c : Char) (b : List Char) :
    strChunkOk ((escapeCharAscii c).data ++ b) = strChunkOk b := by
  unfold escapeCharAscii
  split_ifs with h1 h2 h3 h4 h5
  · simp [strChunkOk_esc]
  · simp [strChunkOk_esc]
  · exact strChunkOk_escapeControl c b
  · exact strChunkOk_plain c b h2 h1
  · simp [String.data_append, strChunkOk_esc, strChunkOk_hex4]
  · simp [String.data_append, strChunkOk_esc, strChunkOk_hex4]

theorem strChunkOk_escapeCharRaw (c : Char) (b : List Char) :
    strChunkOk ((escapeCharRaw c).data ++ b) = strChunkOk b := by
  unfold escapeCharRaw
  split_ifs with h1 h2 h3
  · simp [strChunkOk_esc]
  · simp [strChunkOk_esc]
  · exact strChunkOk_escapeControl c b
  · exact strChunkOk_plain c b h2 h1

theorem strChunkOk_escapeChars (esc : Char → String)
    (hesc : ∀ c b, strChunkOk ((esc c).data ++ b) = strChunkOk b)
    (l b : List Char) :
    strChunkOk ((escapeChars esc l).data ++ b) = strChunkOk b := by
  induction l with
  | nil => rfl
  | cons c cs ih =>
    calc strChunkOk ((escapeChars esc (c :: cs)).data ++ b)
        = strChunkOk ((esc c).data ++ ((escapeChars esc cs).data ++ b)) := by
          simp [escapeChars, String.data_append]
      _ = strChunkOk b := by rw [hesc, ih]

theorem litCharsOk_strLit (body : List Char) (h : strBodyOk body = true) :
    litCharsOk ('"' :: body) = true := by
  simpa [litCharsOk] using h

theorem litTokOk_encodeString (ea : Bool) (s : String) :
    litTokOk (encodeString ea s) = true := by
  have hdata : (encodeString ea s).data =
      '"' :: ((escapeChars (if ea then escapeCharAscii else escapeCharRaw)
        s.data).data ++ ['"']) := by
    simp [encodeString, String.data_append]
  have hchunk : ∀ b, strChunkOk ((escapeChars
      (if ea then escapeCharAscii else escapeCharRaw) s.data).data ++ b) =
      strChunkOk b := by
    intro b
    cases ea with
    | true => exact strChunkOk_escapeChars _ strChunkOk_escapeCharAscii s.data b
    | false => exact strChunkOk_escapeChars _ strChunkOk_escapeCharRaw s.data b
  have hbody : strBodyOk ((escapeChars
      (if ea then escapeCharAscii else escapeCharRaw) s.data).data ++ ['"']) = true := by
    apply strBodyOk_chunk_append
    · have := hchunk []
      simpa using this
    · decide
  rw [litTokOk, hdata]
  exact litCharsOk_strLit _ hbody

/-! ## Number atoms are well-formed tokens -/

theorem digitChar_atomCharOk (d : Nat) (h : d < 10) :
    atomCharOk (Nat.digitChar d) = true := by
  interval_cases d <;> decide

theorem digitChar_ascii (d : Nat) (h : d < 10) :
    (Nat.digitChar d).toNat < 128 := by
  interval_cases d <;> decide

theorem toDigitsCore_all (P : Char → Bool)
    (hd : ∀ d, d < 10 → P (Nat.digitChar d) = true) :
    ∀ (fuel n : Nat) (acc : List Char), acc.all P = true →
      (Nat.toDigitsCore 10 fuel n acc).all P = true := by
  intro fuel
  induction fuel with
  | zero =>
    intro n acc h
    simpa [Nat.toDigitsCore] using h
  | succ f ih =>
    intro n acc h
    rw [Nat.toDigitsCore]
    have hdig : P (Nat.digitChar (n % 10)) = true :=
      hd _ (Nat.mod_lt _ (by norm_num))
    split
    · simp [hdig, h]
    · exact ih _ _ (by simp [hdig, h])

theorem toDigitsCore_ne_nil :
    ∀ (fuel n : Nat) (c : Char) (acc : List Char),
      Nat.toDigitsCore 10 fuel n (c :: acc) ≠ [] := by
  intro fuel
  induction fuel with
  | zero => intro n c acc; simp [Nat.toDigitsCore]
  | succ f ih =>
    intro n c acc
    rw [Nat.toDigitsCore]
    split
    · simp
    · exact ih _ _ _

theorem natRepr_all (P : Char → Bool)
    (hd : ∀ d, d < 10 → P (Nat.digitChar d) = true) (n : Nat) :
    (Nat.repr n).data.all P = true := by
  show (Nat.toDigitsCore 10 (n + 1) n []).all P = true
  exact toDigitsCore_all P hd (n + 1) n [] rfl

theorem natRepr_ne_nil (n : Nat) : (Nat.repr n).data ≠ [] := by
  show Nat.toDigitsCore 10 (n + 1) n [] ≠ []
  rw [Nat.toDigitsCore]
  split
  · simp
  · exact toDigitsCore_ne_nil _ _ _ _

theorem litCharsOk_atomRun (cs : List Char) (hne : cs ≠ [])
    (hall : cs.all atomCharOk = true) : litCharsOk cs = true := by
  cases cs with
  | nil => exact absurd rfl hne
  | cons c cs' =>
    have hc : atomCharOk c = true := by
      simp only [List.all_cons, Bool.and_eq_true] at hall
      exact hall.1
    have hq : ¬c = '"' := by
      intro hq
      subst hq
      simp [atomCharOk, isJsonWs, isJsonDelim] at hc
    simp [litCharsOk, hq, hall]

theorem litTokOk_int (n : Int) : litTokOk (toString n) = true := by
  cases n with
  | ofNat m =>
    exact litCharsOk_atomRun _ (natRepr_ne_nil m)
      (natRepr_all atomCharOk digitChar_atomCharOk m)
  | negSucc m =>
    have hdata : (toString (Int.negSucc m)).data = '-' :: (Nat.repr (m + 1)).data := by
      show (("-" : String) ++ Nat.repr (m + 1)).data = _
      simp [String.data_append]
    rw [litTokOk, hdata]
    apply litCharsOk_atomRun _ (by simp)
    simp only [List.all_cons, Bool.and_eq_true]
    exact ⟨by decide, natRepr_all atomCharOk digitChar_atomCharOk (m + 1)⟩

/-! ## Invariants of the emitted token streams -/

theorem sepOk_left (x y : JTok) (h : isLitTok x = false) : SepOk x y := by
  intro hh
  rw [h] at hh
  exact absurd hh.1 (by simp)

theorem sepOk_right (x y : JTok) (h : isLitTok y = false) : SepOk x y := by
  intro hh
  rw [h] at hh
  exact absurd hh.2 (by simp)

theorem noAdjLits_glue (a : List JTok) (t : JTok) (b : List JTok)
    (ht : isLitTok t = false) (ha : noAdjLits a) (hb : noAdjLits b) :
    noAdjLits (a ++ t :: b) := by
  unfold noAdjLits at *
  rw [List.chain'_append]
  refine ⟨ha, ?_, ?_⟩
  · rw [List.chain'_cons']
    exact ⟨fun y _ => sepOk_left t y ht, hb⟩
  · intro x _ y hy
    simp only [List.head?_cons, Option.mem_def, Option.some.injEq] at hy
    subst hy
    exact sepOk_right x t ht

theorem noAdjLits_wrap (l r : JTok) (hl : isLitTok l = false)
    (hr : isLitTok r = false) (ts : List JTok) (h : noAdjLits ts) :
    noAdjLits (l :: (ts ++ [r])) := by
  have h1 : noAdjLits (ts ++ [r]) := by
    simpa using noAdjLits_glue ts r [] hr h List.chain'_nil
  unfold noAdjLits at *
  rw [List.chain'_cons']
  exact ⟨fun y _ => sepOk_left l y hl, h1⟩

theorem noAdjLits_entry (k : JTok) (ts : List JTok) (h : noAdjLits ts) :
    noAdjLits (k :: JTok.colon :: ts) := by
  unfold noAdjLits at *
  rw [List.chain'_cons', List.chain'_cons']
  refine ⟨?_, fun y _ => sepOk_left JTok.colon y rfl, h⟩
  intro y hy
  simp only [List.head?_cons, Option.mem_def, Option.some.injEq] at hy
  subst hy
  exact sepOk_right k JTok.colon rfl

mutual

theorem encToksVal_wf (ea : Bool) : ∀ (v : PyVal) (ts : List JTok),
    encToksVal ea v = .ok ts → litsOk ts = true ∧ noAdjLits ts
  | .str s, ts, h => by
    simp only [encToksVal, Except.ok.injEq] at h
    subst h
    exact ⟨by simp [litsOk, litTokOk_encodeString], List.chain'_singleton _⟩
  | .int n, ts, h => by
    simp only [encToksVal, Except.ok.injEq] at h
    subst h
    exact ⟨by simp [litsOk, litTokOk_int], List.chain'_singleton _⟩
  | .bool b, ts, h => by
    simp only [encToksVal, Except.ok.injEq] at h
    subst h
    cases b <;>
      exact ⟨by simp [litsOk]; decide, List.chain'_singleton _⟩
  | .pyNone, ts, h => by
    simp only [encToksVal, Except.ok.injEq] at h
    subst h
    exact ⟨by simp [litsOk]; decide, List.chain'_singleton _⟩
  | .list [], ts, h => by
    simp only [encToksVal, Except.ok.injEq] at h
    subst h
    exact ⟨rfl, List.chain'_singleton _⟩
  | .list (x :: xs), ts, h => by
    simp only [encToksVal, bind, Except.bind] at h
    cases hxs : encToksItems ea (x :: xs) with
    | error e => rw [hxs] at h; exact absurd h (by simp)
    | ok l =>
      rw [hxs] at h
      simp only [pure, Except.pure, Except.ok.injEq] at h
      subst h
      obtain ⟨h1, h2⟩ := encToksItems_wf ea (x :: xs) l hxs
      constructor
      · simp [litsOk] at h1 ⊢
        exact h1
      · simpa using noAdjLits_wrap JTok.lbrack JTok.rbrack rfl rfl l h2
  | .dict [], ts, h => by
    simp only [encToksVal, Except.ok.injEq] at h
    subst h
    exact ⟨rfl, List.chain'_singleton _⟩
  | .dict (kv :: kvs), ts, h => by
    simp only [encToksVal, bind, Except.bind] at h
    cases hxs : encToksEntries ea (kv :: kvs) with
    | error e => rw [hxs] at h; exact absurd h (by simp)
    | ok l =>
      rw [hxs] at h
      simp only [pure, Except.pure, Except.ok.injEq] at h
      subst h
      obtain ⟨h1, h2⟩ := encToksEntries_wf ea (kv :: kvs) l hxs
      constructor
      · simp [litsOk] at h1 ⊢
        exact h1
      · simpa using noAdjLits_wrap JTok.lbrace JTok.rbrace rfl rfl l h2
  | .obj o, ts, h => by
    simp only [encToksVal] at h
    cases hdef : JsonEncoder.default o with
    | error e => rw [hdef] at h; exact absurd h (by simp)
    | ok a =>
      rw [hdef] at h
      cases a with
      | str s =>
        simp only [Except.ok.injEq] at h
        subst h
        exact ⟨by simp [litsOk, litTokOk_encodeString], List.chain'_singleton _⟩
      | null =>
        simp only [Except.ok.injEq] at h
        subst h
        exact ⟨by simp [litsOk]; decide, List.chain'_singleton _⟩

theorem encToksItems_wf (ea : Bool) : ∀ (xs : List PyVal) (ts : List JTok),
    encToksItems ea xs = .ok ts → litsOk ts = true ∧ noAdjLits ts
  | [], ts, h => by
    simp only [encToksItems, Except.ok.injEq] at h
    subst h
    exact ⟨rfl, List.chain'_nil⟩
  | [x], ts, h => by
    rw [encToksItems] at h
    exact encToksVal_wf ea x ts h
  | x :: y :: xs, ts, h => by
    simp only [encToksItems, bind, Except.bind] at h
    cases hx : encToksVal ea x with
    | error e => rw [hx] at h; exact absurd h (by simp)
    | ok tx =>
      rw [hx] at h
      cases hxs : encToksItems ea (y :: xs) with
      | error e => rw [hxs] at h; exact absurd h (by simp)
      | ok txs =>
        rw [hxs] at h
        simp only [pure, Except.pure, Except.ok.injEq] at h
        subst h
        obtain ⟨hx1, hx2⟩ := encToksVal_wf ea x tx hx
        obtain ⟨hs1, hs2⟩ := encToksItems_wf ea (y :: xs) txs hxs
        constructor
        · simp [litsOk] at hx1 hs1 ⊢
          exact ⟨hx1, hs1⟩
        · simpa using noAdjLits_glue tx JTok.comma txs rfl hx2 hs2

theorem encToksEntries_wf (ea : Bool) : ∀ (kvs : List (String × PyVal)) (ts : List JTok),
    encToksEntries ea kvs = .ok ts → litsOk ts = true ∧ noAdjLits ts
  | [], ts, h => by
    simp only [encToksEntries, Except.ok.injEq] at h
    subst h
    exact ⟨rfl, List.chain'_nil⟩
  | [(k, v)], ts, h => by
    rw [encToksEntries] at h
    simp only [bind, Except.bind] at h
    cases hv : encToksVal ea v with
    | error e => rw [hv] at h; exact absurd h (by simp)
    | ok tv =>
      rw [hv] at h
      simp only [pure, Except.pure, Except.ok.injEq] at h
      subst h
      obtain ⟨h1, h2⟩ := encToksVal_wf ea v tv hv
      constructor
      · simp [litsOk] at h1 ⊢
        exact ⟨litTokOk_encodeString ea k, h1⟩
      · simpa using noAdjLits_entry (JTok.lit (encodeString ea k)) tv h2
  | (k, v) :: e :: kvs, ts, h => by
    simp only [encToksEntries, bind, Except.bind] at h
    cases hv : encToksVal ea v with
    | error er => rw [hv] at h; exact absurd h (by simp)
    | ok tv =>
      rw [hv] at h
      cases hr : encToksEntries ea (e :: kvs) with
      | error er => rw [hr] at h; exact absurd h (by simp)
      | ok tr =>
        rw [hr] at h
        simp only [pure, Except.pure, Except.ok.injEq] at h
        subst h
        obtain ⟨h1, h2⟩ := encToksVal_wf ea v tv hv
        obtain ⟨h3, h4⟩ := encToksEntries_wf ea (e :: kvs) tr hr
        constructor
        · simp [litsOk] at h1 h3 ⊢
          exact ⟨litTokOk_encodeString ea k, h1, h3⟩
        · have hglue := noAdjLits_glue tv JTok.comma tr rfl h2 h4
          simpa using noAdjLits_entry (JTok.lit (encodeString ea k))
            (tv ++ JTok.comma :: tr) hglue

end

/-! ## Lexing the rendered output recovers the token stream -/

theorem repeatStr_ws (s : String) (hs : s.data.all isJsonWs = true) (n : Nat) :
    (repeatStr s n).data.all isJsonWs = true := by
  induction n with
  | zero => rfl
  | succ n ih => simp [repeatStr, String.data_append, hs, ih]

theorem nlIndent_ws (ind : Option String) (hind : indentWsStrOk ind = true)
    (d : Nat) : (nlIndent ind d).data.all isJsonWs = true := by
  cases ind with
  | none => rfl
  | some s =>
    simp only [indentWsStrOk] at hind
    simp [nlIndent, String.data_append, repeatStr_ws s hind d]
    rfl

theorem lex_step_delim (c : Char) (hc : isJsonDelim c = true) (w rest : List Char)
    (hw : w.all isJsonWs = true) :
    lexJsonAux (c :: (w ++ rest)) = String.singleton c :: lexJsonAux rest := by
  rw [lexJsonAux_delim c _ hc, lexJsonAux_ws_prefix w rest hw]

theorem renderToks_stopsRun (ind : Option String) (ts : List JTok) (d : Nat)
    (h : ts.head?.all (fun t => !isLitTok t) = true) :
    stopsRun (renderToks ind d ts).data = true := by
  cases ts with
  | nil => rfl
  | cons t ts =>
    cases t with
    | lit s => simp [isLitTok] at h
    | lbrack => simp [renderToks, String.data_append, stopsRun, isJsonDelim]
    | lbrace => simp [renderToks, String.data_append, stopsRun, isJsonDelim]
    | emptyArr => simp [renderToks, String.data_append, stopsRun, isJsonDelim]
    | emptyObj => simp [renderToks, String.data_append, stopsRun, isJsonDelim]
    | colon => simp [renderToks, String.data_append, stopsRun, isJsonDelim]
    | rbrack =>
      cases ind with
      | none => simp [renderToks, nlIndent, String.data_append, stopsRun, isJsonDelim]
      | some s => simp [renderToks, nlIndent, String.data_append, stopsRun, isJsonWs]
    | rbrace =>
      cases ind with
      | none => simp [renderToks, nlIndent, String.data_append, stopsRun, isJsonDelim]
      | some s => simp [renderToks, nlIndent, String.data_append, stopsRun, isJsonWs]
    | comma =>
      cases ind with
      | none => simp [renderToks, String.data_append, stopsRun, isJsonDelim]
      | some s => simp [renderToks, nlIndent, String.data_append, stopsRun, isJsonDelim]

theorem lexJsonAux_renderToks (ind : Option String) (hind : indentWsStrOk ind = true) :
    ∀ (ts : List JTok) (d : Nat), litsOk ts = true → noAdjLits ts →
      lexJsonAux (renderToks ind d ts).data = ts.flatMap JTok.lexemes := by
  intro ts
  induction ts with
  | nil =>
    intro d _ _
    simp [renderToks, lexJsonAux]
  | cons t ts ih =>
    intro d hl hc
    have hl' : litsOk ts = true := by
      simp only [litsOk, List.all_cons, Bool.and_eq_true] at hl
      exact hl.2
    have hc' : noAdjLits ts := hc.tail
    cases t with
    | lbrack =>
      have : (renderToks ind d (JTok.lbrack :: ts)).data =
          '[' :: ((nlIndent ind (d + 1)).data ++ (renderToks ind (d + 1) ts).data) := by
        simp [renderToks, String.data_append]
      rw [this, lex_step_delim '[' (by decide) _ _ (nlIndent_ws ind hind (d + 1)),
        ih (d + 1) hl' hc']
      rfl
    | lbrace =>
      have : (renderToks ind d (JTok.lbrace :: ts)).data =
          '{' :: ((nlIndent ind (d + 1)).data ++ (renderToks ind (d + 1) ts).data) := by
        simp [renderToks, String.data_append]
      rw [this, lex_step_delim '{' (by decide) _ _ (nlIndent_ws ind hind (d + 1)),
        ih (d + 1) hl' hc']
      rfl
    | rbrack =>
      have : (renderToks ind d (JTok.rbrack :: ts)).data =
          (nlIndent ind (d - 1)).data ++ (']' :: (renderToks ind (d - 1) ts).data) := by
        simp [renderToks, String.data_append]
      rw [this, lexJsonAux_ws_prefix _ _ (nlIndent_ws ind hind (d - 1)),
        lexJsonAux_delim ']' _ (by decide), ih (d - 1) hl' hc']
      rfl
    | rbrace =>
      have : (renderToks ind d (JTok.rbrace :: ts)).data =
          (nlIndent ind (d - 1)).data ++ ('}' :: (renderToks ind (d - 1) ts).data) := by
        simp [renderToks, String.data_append]
      rw [this, lexJsonAux_ws_prefix _ _ (nlIndent_ws ind hind (d - 1)),
        lexJsonAux_delim '}' _ (by decide), ih (d - 1) hl' hc']
      rfl
    | emptyArr =>
      have : (renderToks ind d (JTok.emptyArr :: ts)).data =
          '[' :: ']' :: (renderToks ind d ts).data := by
        simp [renderToks, String.data_append]
      rw [this, lexJsonAux_delim '[' _ (by decide), lexJsonAux_delim ']' _ (by decide),
        ih d hl' hc']
      rfl
    | emptyObj =>
      have : (renderToks ind d (JTok.emptyObj :: ts)).data =
          '{' :: '}' :: (renderToks ind d ts).data := by
        simp [renderToks, String.data_append]
      rw [this, lexJsonAux_delim '{' _ (by decide), lexJsonAux_delim '}' _ (by decide),
        ih d hl' hc']
      rfl
    | colon =>
      have : (renderToks ind d (JTok.colon :: ts)).data =
          ':' :: ([' '] ++ (renderToks ind d ts).data) := by
        simp [renderToks, String.data_append]
      rw [this, lex_step_delim ':' (by decide) _ _ (by decide), ih d hl' hc']
      rfl
    | comma =>
      cases ind with
      | none =>
        have : (renderToks Option.none d (JTok.comma :: ts)).data =
            ',' :: ([' '] ++ (renderToks Option.none d ts).data) := by
          simp [renderToks, String.data_append]
        rw [this, lex_step_delim ',' (by decide) _ _ (by decide), ih d hl' hc']
        rfl
      | some s =>
        have : (renderToks (some s) d (JTok.comma :: ts)).data =
            ',' :: ((nlIndent (some s) d).data ++ (renderToks (some s) d ts).data) := by
          simp [renderToks, String.data_append]
        rw [this, lex_step_delim ',' (by decide) _ _ (nlIndent_ws (some s) hind d),
          ih d hl' hc']
        rfl
    | lit s =>
      have hstok : litTokOk s = true := by
        simp only [litsOk, List.all_cons, Bool.and_eq_true] at hl
        exact hl.1
      have hdata : (renderToks ind d (JTok.lit s :: ts)).data =
          s.data ++ (renderToks ind d ts).data := by
        simp [renderToks, String.data_append]
      rw [litTokOk] at hstok
      cases hsd : s.data with
      | nil => rw [hsd] at hstok; simp [litCharsOk] at hstok
      | cons c cs =>
        rw [hsd] at hstok
        by_cases hq : c = '"'
        · subst hq
          have hbody : strBodyOk cs = true := by
            simpa [litCharsOk] using hstok
          have : (renderToks ind d (JTok.lit s :: ts)).data =
              '"' :: (cs ++ (renderToks ind d ts).data) := by
            rw [hdata, hsd]
            rfl
          rw [this, lexJsonAux_strLit cs _ hbody, ih d hl' hc']
          have hmk : String.mk ('"' :: cs) = s := by
            rw [← hsd]
          rw [hmk]
          rfl
        · have hall : (c :: cs).all atomCharOk = true := by
            simpa [litCharsOk, hq] using hstok
          have hstop : stopsRun (renderToks ind d ts).data = true := by
            apply renderToks_stopsRun
            cases ts with
            | nil => rfl
            | cons t' ts' =>
              have hsep : SepOk (JTok.lit s) t' := List.chain'_cons.mp hc |>.1
              have : isLitTok t' = false := by
                by_contra hcon
                simp only [Bool.not_eq_false] at hcon
                exact hsep ⟨rfl, hcon⟩
              simp [this]
          have : (renderToks ind d (JTok.lit s :: ts)).data =
              c :: (cs ++ (renderToks ind d ts).data) := by
            rw [hdata, hsd]
            rfl
          simp only [List.all_cons, Bool.and_eq_true] at hall
          rw [this, lexJsonAux_atom c cs _ hall.1 hall.2 hstop, ih d hl' hc']
          have hmk : String.mk (c :: cs) = s := by
            rw [← hsd]
          rw [hmk]
          rfl

theorem indentWsOk_toStr (ind : Option JsonIndent) (h : indentWsOk ind = true) :
    indentWsStrOk (ind.map JsonIndent.toIndentString) = true := by
  cases ind with
  | none => rfl
  | some i => simpa [indentWsOk, indentWsStrOk] using h

theorem indentWsOk_ofInt (n : Int) : indentWsOk (some (.ofInt n)) = true := by
  simp only [indentWsOk, JsonIndent.toIndentString]
  exact repeatStr_ws " " (by decide) n.toNat

theorem dumps_lex_indent (v : PyVal) (ea : Bool) (ind ind' : Option JsonIndent)
    (h : indentWsOk ind = true) (h' : indentWsOk ind' = true) :
    (dumps v ea ind).map lexJson = (dumps v ea ind').map lexJson := by
  unfold dumps
  cases he : encToksVal ea v with
  | error e => rfl
  | ok ts =>
    obtain ⟨h1, h2⟩ := encToksVal_wf ea v ts he
    simp only [Except.map]
    rw [lexJson, lexJson, lexJsonAux_renderToks _ (indentWsOk_toStr ind h) ts 0 h1 h2,
      lexJsonAux_renderToks _ (indentWsOk_toStr ind' h') ts 0 h1 h2]

/-! ## ASCII-only output under `ensure_ascii=True` -/

theorem asciiStr_append (a b : String) :
    asciiStr (a ++ b) = (asciiStr a && asciiStr b) := by
  simp [asciiStr, String.data_append]

theorem hex4_ascii (n : Nat) : asciiStr (hex4 n) = true := by
  have h1 := (hexDigitChar_plain (n / 4096 % 16) (Nat.mod_lt _ (by norm_num))).2.2
  have h2 := (hexDigitChar_plain (n / 256 % 16) (Nat.mod_lt _ (by norm_num))).2.2
  have h3 := (hexDigitChar_plain (n / 16 % 16) (Nat.mod_lt _ (by norm_num))).2.2
  have h4 := (hexDigitChar_plain (n % 16) (Nat.mod_lt _ (by norm_num))).2.2
  simp [asciiStr, hex4, h1, h2, h3, h4]

theorem escapeControl_ascii (c : Char) : asciiStr (escapeControl c) = true := by
  unfold escapeControl
  split_ifs <;> first
    | decide
    | (simp [asciiStr_append, hex4_ascii]; decide)

theorem escapeCharAscii_ascii (c : Char) : asciiStr (escapeCharAscii c) = true := by
  unfold escapeCharAscii
  split_ifs with h1 h2 h3 h4 h5
  · decide
  · decide
  · exact escapeControl_ascii c
  · simp [asciiStr, String.singleton]
    omega
  · simp [asciiStr_append, hex4_ascii]
    decide
  · simp [asciiStr_append, hex4_ascii]
    decide

theorem escapeChars_ascii (esc : Char → String)
    (hesc : ∀ c, asciiStr (esc c) = true) (l : List Char) :
    asciiStr (escapeChars esc l) = true := by
  induction l with
  | nil => rfl
  | cons c cs ih => simp [escapeChars, asciiStr_append, hesc c, ih]

theorem encodeString_ascii (s : String) : asciiStr (encodeString true s) = true := by
  simp [encodeString, asciiStr_append,
    escapeChars_ascii escapeCharAscii escapeCharAscii_ascii s.data]
  decide

theorem intRepr_ascii (n : Int) : asciiStr (toString n) = true := by
  have hp : ∀ d, d < 10 → (fun c => decide (c.toNat < 128)) (Nat.digitChar d) = true :=
    fun d hd => decide_eq_true (digitChar_ascii d hd)
  cases n with
  | ofNat m => exact natRepr_all _ hp m
  | negSucc m =>
    have hdata : (toString (Int.negSucc m)).data = '-' :: (Nat.repr (m + 1)).data := by
      show (("-" : String) ++ Nat.repr (m + 1)).data = _
      simp [String.data_append]
    simp only [asciiStr, hdata, List.all_cons, Bool.and_eq_true]
    exact ⟨by decide, natRepr_all _ hp (m + 1)⟩

mutual

theorem encToksVal_ascii : ∀ (v : PyVal) (ts : List JTok),
    encToksVal true v = .ok ts → litsAscii ts = true
  | .str s, ts, h => by
    simp only [encToksVal, Except.ok.injEq] at h
    subst h
    simp [litsAscii, encodeString_ascii]
  | .int n, ts, h => by
    simp only [encToksVal, Except.ok.injEq] at h
    subst h
    simp [litsAscii, intRepr_ascii]
  | .bool b, ts, h => by
    simp only [encToksVal, Except.ok.injEq] at h
    subst h
    cases b <;> (simp [litsAscii]; decide)
  | .pyNone, ts, h => by
    simp only [encToksVal, Except.ok.injEq] at h
    subst h
    simp [litsAscii]
    decide
  | .list [], ts, h => by
    simp only [encToksVal, Except.ok.injEq] at h
    subst h
    rfl
  | .list (x :: xs), ts, h => by
    simp only [encToksVal, bind, Except.bind] at h
    cases hxs : encToksItems true (x :: xs) with
    | error e => rw [hxs] at h; exact absurd h (by simp)
    | ok l =>
      rw [hxs] at h
      simp only [pure, Except.pure, Except.ok.injEq] at h
      subst h
      have h1 := encToksItems_ascii (x :: xs) l hxs
      simp [litsAscii] at h1 ⊢
      exact h1
  | .dict [], ts, h => by
    simp only [encToksVal, Except.ok.injEq] at h
    subst h
    rfl
  | .dict (kv :: kvs), ts, h => by
    simp only [encToksVal, bind, Except.bind] at h
    cases hxs : encToksEntries true (kv :: kvs) with
    | error e => rw [hxs] at h; exact absurd h (by simp)
    | ok l =>
      rw [hxs] at h
      simp only [pure, Except.pure, Except.ok.injEq] at h
      subst h
      have h1 := encToksEntries_ascii (kv :: kvs) l hxs
      simp [litsAscii] at h1 ⊢
      exact h1
  | .obj o, ts, h => by
    simp only [encToksVal] at h
    cases hdef : JsonEncoder.default o with
    | error e => rw [hdef] at h; exact absurd h (by simp)
    | ok a =>
      rw [hdef] at h
      cases a with
      | str s =>
        simp only [Except.ok.injEq] at h
        subst h
        simp [litsAscii, encodeString_ascii]
      | null =>
        simp only [Except.ok.injEq] at h
        subst h
        simp [litsAscii]
        decide

theorem encToksItems_ascii : ∀ (xs : List PyVal) (ts : List JTok),
    encToksItems true xs = .ok ts → litsAscii ts = true
  | [], ts, h => by
    simp only [encToksItems, Except.ok.injEq] at h
    subst h
    rfl
  | [x], ts, h => by
    rw [encToksItems] at h
    exact encToksVal_ascii x ts h
  | x :: y :: xs, ts, h => by
    simp only [encToksItems, bind, Except.bind] at h
    cases hx : encToksVal true x with
    | error e => rw [hx] at h; exact absurd h (by simp)
    | ok tx =>
      rw [hx] at h
      cases hxs : encToksItems true (y :: xs) with
      | error e => rw [hxs] at h; exact absurd h (by simp)
      | ok txs =>
        rw [hxs] at h
        simp only [pure, Except.pure, Except.ok.injEq] at h
        subst h
        have h1 := encToksVal_ascii x tx hx
        have h2 := encToksItems_ascii (y :: xs) txs hxs
        simp [litsAscii] at h1 h2 ⊢
        exact ⟨h1, h2⟩

theorem encToksEntries_ascii : ∀ (kvs : List (String × PyVal)) (ts : List JTok),
    encToksEntries true kvs = .ok ts → litsAscii ts = true
  | [], ts, h => by
    simp only [encToksEntries, Except.ok.injEq] at h
    subst h
    rfl
  | [(k, v)], ts, h => by
    rw [encToksEntries] at h
    simp only [bind, Except.bind] at h
    cases hv : encToksVal true v with
    | error e => rw [hv] at h; exact absurd h (by simp)
    | ok tv =>
      rw [hv] at h
      simp only [pure, Except.pure, Except.ok.injEq] at h
      subst h
      have h1 := encToksVal_ascii v tv hv
      simp [litsAscii] at h1 ⊢
      exact ⟨encodeString_ascii k, h1⟩
  | (k, v) :: e :: kvs, ts, h => by
    simp only [encToksEntries, bind, Except.bind] at h
    cases hv : encToksVal true v with
    | error er => rw [hv] at h; exact absurd h (by simp)
    | ok tv =>
      rw [hv] at h
      cases hr : encToksEntries true (e :: kvs) with
      | error er => rw [hr] at h; exact absurd h (by simp)
      | ok tr =>
        rw [hr] at h
        simp only [pure, Except.pure, Except.ok.injEq] at h
        subst h
        have h1 := encToksVal_ascii v tv hv
        have h2 := encToksEntries_ascii (e :: kvs) tr hr
        simp [litsAscii] at h1 h2 ⊢
        exact ⟨encodeString_ascii k, h1, h2⟩

end

theorem isJsonWs_all_ascii (l : List Char) (h : l.all isJsonWs = true) :
    (l.all fun c => decide (c.toNat < 128)) = true := by
  induction l with
  | nil => rfl
  | cons c cs ih =>
    simp only [List.all_cons, Bool.and_eq_true] at h ⊢
    refine ⟨?_, ih h.2⟩
    have hc := h.1
    simp only [isJsonWs, Bool.or_eq_true, decide_eq_true_eq] at hc
    rcases hc with ((rfl | rfl) | rfl) | rfl <;> decide

theorem renderToks_ascii (ind : Option String) (hind : indentWsStrOk ind = true) :
    ∀ (ts : List JTok) (d : Nat), litsAscii ts = true →
      asciiStr (renderToks ind d ts) = true := by
  intro ts
  induction ts with
  | nil => intro d _; rfl
  | cons t ts ih =>
    intro d hl
    have hl' : litsAscii ts = true := by
      simp only [litsAscii, List.all_cons, Bool.and_eq_true] at hl
      exact hl.2
    have hnl : ∀ k, asciiStr (nlIndent ind k) = true := fun k => by
      have := nlIndent_ws ind hind k
      simpa only [asciiStr] using isJsonWs_all_ascii _ this
    cases t with
    | lit s =>
      have hs : asciiStr s = true := by
        simp only [litsAscii, List.all_cons, Bool.and_eq_true] at hl
        exact hl.1
      simp [renderToks, asciiStr_append, hs, ih d hl']
    | comma =>
      cases ind with
      | none =>
        simp [renderToks, asciiStr_append, ih d hl']
        decide
      | some s =>
        simp [renderToks, asciiStr_append, hnl d, ih d hl']
        decide
    | colon =>
      simp [renderToks, asciiStr_append, ih d hl']
      decide
    | lbrack =>
      simp [renderToks, asciiStr_append, hnl (d + 1), ih (d + 1) hl']
      decide
    | lbrace =>
      simp [renderToks, asciiStr_append, hnl (d + 1), ih (d + 1) hl']
      decide
    | rbrack =>
      simp [renderToks, asciiStr_append, hnl (d - 1), ih (d - 1) hl']
      decide
    | rbrace =>
      simp [renderToks, asciiStr_append, hnl (d - 1), ih (d - 1) hl']
      decide
    | emptyArr =>
      simp [renderToks, asciiStr_append, ih d hl']
      decide
    | emptyObj =>
      simp [renderToks, asciiStr_append, ih d hl']
      decide

theorem dumps_ascii (v : PyVal) (ind : Option JsonIndent) (out : String)
    (hind : indentWsOk ind = true) (h : dumps v true ind = .ok out) :
    asciiStr out = true := by
  unfold dumps at h
  cases he : encToksVal true v with
  | error e =>
    rw [he] at h
    exact absurd h (by simp [Except.map])
  | ok ts =>
    rw [he] at h
    simp only [Except.map, Except.ok.injEq] at h
    subst h
    exact renderToks_ascii _ (indentWsOk_toStr ind hind) ts 0 (encToksVal_ascii v ts he)

/-! ## Totality of encoding on safe records -/

mutual

theorem encToksVal_total (ea : Bool) : ∀ (v : PyVal), v.encodeSafe = true →
    ∃ ts, encToksVal ea v = .ok ts
  | .str s, _ => ⟨_, rfl⟩
  | .int n, _ => ⟨_, rfl⟩
  | .bool b, _ => ⟨_, rfl⟩
  | .pyNone, _ => ⟨_, rfl⟩
  | .list [], _ => ⟨_, rfl⟩
  | .list (x :: xs), h => by
    have h' : PyVal.encodeSafeItems (x :: xs) = true := by
      simpa only [PyVal.encodeSafe] using h
    obtain ⟨l, hl⟩ := encToksItems_total ea (x :: xs) h'
    exact ⟨[JTok.lbrack] ++ l ++ [JTok.rbrack],
      by simp [encToksVal, bind, Except.bind, hl, pure, Except.pure]⟩
  | .dict [], _ => ⟨_, rfl⟩
  | .dict (kv :: kvs), h => by
    have h' : PyVal.encodeSafeEntries (kv :: kvs) = true := by
      simpa only [PyVal.encodeSafe] using h
    obtain ⟨l, hl⟩ := encToksEntries_total ea (kv :: kvs) h'
    exact ⟨[JTok.lbrace] ++ l ++ [JTok.rbrace],
      by simp [encToksVal, bind, Except.bind, hl, pure, Except.pure]⟩
  | .obj o, h => by
    cases o with
    | dateLike d => exact ⟨_, rfl⟩
    | traceback t => exact ⟨_, rfl⟩
    | excInst sf =>
      cases sf with
      | none => simp [PyVal.encodeSafe, PyObj.encodeSafe] at h
      | some s => exact ⟨_, rfl⟩
    | typeObj s => exact ⟨_, rfl⟩
    | other sf => cases sf <;> exact ⟨_, rfl⟩

theorem encToksItems_total (ea : Bool) : ∀ (xs : List PyVal),
    PyVal.encodeSafeItems xs = true → ∃ ts, encToksItems ea xs = .ok ts
  | [], _ => ⟨_, rfl⟩
  | [x], h => by
    have hx : x.encodeSafe = true := by
      simp only [PyVal.encodeSafeItems, Bool.and_eq_true] at h
      exact h.1
    obtain ⟨ts, hts⟩ := encToksVal_total ea x hx
    exact ⟨ts, by rw [encToksItems]; exact hts⟩
  | x :: y :: xs, h => by
    simp only [PyVal.encodeSafeItems, Bool.and_eq_true] at h
    obtain ⟨tx, htx⟩ := encToksVal_total ea x h.1
    obtain ⟨ts, hts⟩ := encToksItems_total ea (y :: xs) (by
      simpa only [PyVal.encodeSafeItems, Bool.and_eq_true] using h.2)
    exact ⟨tx ++ [JTok.comma] ++ ts,
      by simp [encToksItems, bind, Except.bind, htx, hts, pure, Except.pure]⟩

theorem encToksEntries_total (ea : Bool) : ∀ (kvs : List (String × PyVal)),
    PyVal.encodeSafeEntries kvs = true → ∃ ts, encToksEntries ea kvs = .ok ts
  | [], _ => ⟨_, rfl⟩
  | [(k, v)], h => by
    have hv : v.encodeSafe = true := by
      simp only [PyVal.encodeSafeEntries, Bool.and_eq_true] at h
      exact h.1
    obtain ⟨tv, htv⟩ := encToksVal_total ea v hv
    exact ⟨[JTok.lit (encodeString ea k), JTok.colon] ++ tv, by
      rw [encToksEntries]
      simp [bind, Except.bind, htv, pure, Except.pure]⟩
  | (k, v) :: e :: kvs, h => by
    simp only [PyVal.encodeSafeEntries, Bool.and_eq_true] at h
    obtain ⟨tv, htv⟩ := encToksVal_total ea v h.1
    obtain ⟨ts, hts⟩ := encToksEntries_total ea (e :: kvs) (by
      simpa only [PyVal.encodeSafeEntries, Bool.and_eq_true] using h.2)
    exact ⟨[JTok.lit (encodeString ea k), JTok.colon] ++ tv ++ [JTok.comma] ++ ts,
      by simp [encToksEntries, bind, Except.bind, htv, hts, pure, Except.pure]⟩

end

theorem dumps_total (v : PyVal) (ea : Bool) (ind : Option JsonIndent)
    (h : v.encodeSafe = true) : ∃ out, dumps v ea ind = .ok out := by
  obtain ⟨ts, hts⟩ := encToksVal_total ea v h
  exact ⟨renderToks (ind.map JsonIndent.toIndentString) 0 ts,
    by simp [dumps, hts, Except.map]⟩

/-! ## Further helper lemmas -/

theorem jsonEncoder_default_no_typeError (o : PyObj) (m : String) :
    JsonEncoder.default o ≠ .error (.typeError m) := by
  cases o with
  | dateLike d => simp [JsonEncoder.default, JsonEncoder.defaultWith]
  | traceback t => simp [JsonEncoder.default, JsonEncoder.defaultWith]
  | excInst sf =>
    cases sf <;>
      simp [JsonEncoder.default, JsonEncoder.defaultWith, pyStrRaise, PyObj.pyStr]
  | typeObj s =>
    simp [JsonEncoder.default, JsonEncoder.defaultWith, pyStrRaise, PyObj.pyStr]
  | other sf =>
    cases sf <;>
      simp [JsonEncoder.default, JsonEncoder.defaultWith, JSONEncoder.default,
        PyObj.pyStr]

theorem escapeCharRaw_literal (c : Char) (h1 : 32 ≤ c.toNat) (h2 : ¬c = '"')
    (h3 : ¬c = '\\') : escapeCharRaw c = String.singleton c := by
  have h4 : ¬c.toNat < 32 := by omega
  simp [escapeCharRaw, h2, h3, h4]

/-! ## The claims -/

/-- C1 (counterexample): serialization is not total over arbitrary record
contents.  A record holding an exception instance whose own `str()` conversion
raises makes `json.dumps` raise: line 42 of `json.py` (`return str(o)` for
exception instances) is outside any `try`, so the exception propagates out of
`serialize`. -/
theorem C1_counterexample :
    dumps (.dict [("k", .obj (.excInst Option.none))]) true Option.none
      = .error .strConversionError := rfl

/-- C1 (amended): serializing a record with the default configuration returns
a JSON string for every record whose exception-instance values have a
non-raising textual conversion (all other value categories, including opaque
objects whose `str()` raises, are absorbed); the encoder's fallback never lets
a `TypeError` escape outward; and the default configuration installs the
built-in `JsonEncoder` chain with no `default` hook. -/
theorem C1_amended :
    (∀ (v : PyVal) (ea : Bool) (ind : Option JsonIndent), v.encodeSafe = true →
      ∃ out, dumps v ea ind = .ok out) ∧
    (∀ (o : PyObj) (m : String), JsonEncoder.default o ≠ .error (.typeError m)) ∧
    (∀ r : PyVal,
      (JsonFormatter.jsonify_log_record JsonFormatter.mkDefault r).cls
        = some EncoderArg.jsonEncoderClass ∧
      (JsonFormatter.jsonify_log_record JsonFormatter.mkDefault r).default
        = Option.none) :=
  ⟨fun v ea ind h => dumps_total v ea ind h,
   jsonEncoder_default_no_typeError,
   fun _ => ⟨rfl, rfl⟩⟩

/-- C1 (witness): a concrete record containing a string, a temporal value, a
traceback, an exception with a working `str()`, and an opaque object whose
`str()` raises, serializes successfully. -/
theorem C1_witness :
    ∃ out, dumps (.dict [("msg", .str "héllo"),
      ("when", .obj (.dateLike ⟨"2024-01-02T03:04:05", "2024-01-02 03:04:05"⟩)),
      ("tb", .obj (.traceback ⟨["  File \"x.py\", line 1\n"], "<traceback>"⟩)),
      ("err", .obj (.excInst (some "boom"))),
      ("opaque", .obj (.other Option.none)),
      ("nested", .list [.int 3, .bool true, .pyNone])]) true Option.none
      = .ok out :=
  C1_amended.1 _ true Option.none (by decide)

/-- C2: the built-in encoder's fallback hook equals first-match application of
the ordered rule chain temporal → traceback → exception/type → delegate →
stringify-or-null; `applyFirst` hands a value to a later rule only when every
earlier rule returned "not applicable". -/
theorem C2_first_match_chain (o : PyObj) :
    JsonEncoder.default o = applyFirst encoderChain o := by
  cases o <;> rfl

/-- C3: temporal values render to their `isoformat()` (ISO-8601) text, the
rendering goes through the separately named `format_datetime_obj`, and
swapping only that operation changes the temporal rule's output while every
other rule of the chain is unaffected. -/
theorem C3_temporal_via_format_datetime_obj :
    (∀ d : DateTimeLike, JsonEncoder.default (.dateLike d)
      = .ok (.str (JsonEncoder.format_datetime_obj d))) ∧
    (∀ d : DateTimeLike, JsonEncoder.format_datetime_obj d = d.isoformat) ∧
    (∀ (fmt : DateTimeLike → String) (d : DateTimeLike),
      JsonEncoder.defaultWith fmt (.dateLike d) = .ok (.str (fmt d))) ∧
    (∀ fmt : DateTimeLike → String,
      (∀ t, JsonEncoder.defaultWith fmt (.traceback t)
        = JsonEncoder.default (.traceback t)) ∧
      (∀ sf, JsonEncoder.defaultWith fmt (.excInst sf)
        = JsonEncoder.default (.excInst sf)) ∧
      (∀ s, JsonEncoder.defaultWith fmt (.typeObj s)
        = JsonEncoder.default (.typeObj s)) ∧
      (∀ sf, JsonEncoder.defaultWith fmt (.other sf)
        = JsonEncoder.default (.other sf))) :=
  ⟨fun _ => rfl, fun _ => rfl, fun _ _ => rfl,
   fun _ => ⟨fun _ => rfl, fun _ => rfl, fun _ => rfl, fun _ => rfl⟩⟩

/-- C4: a traceback object renders as the concatenation (`"".join`) of
`traceback.format_tb(o)` with surrounding whitespace stripped, both at the
hook level and through a whole `json.dumps` call. -/
theorem C4_traceback_trimmed :
    (∀ t : TracebackObj, JsonEncoder.default (.traceback t)
      = .ok (.str (String.join t.formatTb).trim)) ∧
    (∀ t : TracebackObj, dumps (.obj (.traceback t)) true Option.none
      = .ok (encodeString true (String.join t.formatTb).trim)) :=
  ⟨fun _ => rfl,
   fun t => by
    simp [dumps, encToksVal, JsonEncoder.default, JsonEncoder.defaultWith,
      Except.map, renderToks]⟩

/-- C5: an exception instance (whose textual conversion succeeds), the generic
`Exception` class itself, and any class object of metaclass `type` all render
as their own `str()` form; a class object with a nonstandard metaclass misses
the `type(o) == type` test but still comes out as its `str()` form through the
later fallback, so every type/class value yields its own textual form. -/
theorem C5_exception_and_type_str :
    (∀ s : String, JsonEncoder.default (.excInst (some s)) = .ok (.str s)) ∧
    (∀ s : String, JsonEncoder.default (.typeObj s) = .ok (.str s)) ∧
    (∀ s : String, JsonEncoder.default (.other (some s)) = .ok (.str s)) :=
  ⟨fun _ => rfl, fun _ => rfl, fun _ => rfl⟩

/-- C6: the underlying library's extension point (`json.JSONEncoder.default`)
rejects every value with a `TypeError`; the built-in encoder then returns
`str(o)`, and if that conversion itself raises it returns `None` (JSON null)
instead, so the overall serialization still succeeds. -/
theorem C6_last_resort :
    (∀ o : PyObj, JSONEncoder.default o
      = .error (.typeError "Object is not JSON serializable")) ∧
    (∀ s : String, JsonEncoder.default (.other (some s)) = .ok (.str s)) ∧
    (JsonEncoder.default (.other Option.none) = .ok .null) ∧
    (∀ (k : String) (ea : Bool) (ind : Option JsonIndent),
      ∃ out, dumps (.dict [(k, .obj (.other Option.none))]) ea ind = .ok out) :=
  ⟨fun _ => rfl, fun _ => rfl, rfl,
   fun _ ea ind => dumps_total _ ea ind rfl⟩

/-- C7: construction stores `json_default` and `json_encoder` unmodified and
installs the built-in `JsonEncoder` class exactly when neither is supplied;
`jsonify_log_record` passes both through to the serializer unmodified.  In
particular, a custom `json_default` alone leaves `json_encoder = None`: the
built-in chain is not installed. -/
theorem C7_encoder_default_resolution :
    (∀ (ser : SerializerArg) (ind : Option JsonIndent) (ea : Bool),
      (JsonFormatter.init Option.none Option.none ser ind ea).json_encoder
        = some EncoderArg.jsonEncoderClass ∧
      (JsonFormatter.init Option.none Option.none ser ind ea).json_default
        = Option.none) ∧
    (∀ (d : DefaultArg) (ser : SerializerArg) (ind : Option JsonIndent) (ea : Bool),
      (JsonFormatter.init (some d) Option.none ser ind ea).json_default = some d ∧
      (JsonFormatter.init (some d) Option.none ser ind ea).json_encoder
        = Option.none) ∧
    (∀ (e : EncoderArg) (ser : SerializerArg) (ind : Option JsonIndent) (ea : Bool),
      (JsonFormatter.init Option.none (some e) ser ind ea).json_encoder = some e ∧
      (JsonFormatter.init Option.none (some e) ser ind ea).json_default
        = Option.none) ∧
    (∀ (d : DefaultArg) (e : EncoderArg) (ser : SerializerArg)
        (ind : Option JsonIndent) (ea : Bool),
      (JsonFormatter.init (some d) (some e) ser ind ea).json_default = some d ∧
      (JsonFormatter.init (some d) (some e) ser ind ea).json_encoder = some e) ∧
    (∀ (st : JsonFormatterState) (r : PyVal),
      JsonFormatter.jsonify_log_record st r =
        { log_record := r, default := st.json_default, cls := st.json_encoder,
          indent := st.json_indent, ensure_ascii := st.json_ensure_ascii }) :=
  ⟨fun _ _ _ => ⟨rfl, rfl⟩, fun _ _ _ _ => ⟨rfl, rfl⟩, fun _ _ _ _ => ⟨rfl, rfl⟩,
   fun _ _ _ _ _ => ⟨rfl, rfl⟩, fun _ _ => rfl⟩

/-- C8 (counterexample): the indent value is passed through verbatim, so a
non-whitespace *string* indent (allowed by the option's type,
`Optional[Union[int, str]]`) is injected into the output and changes what a
JSON lexer reads back: with `indent="x"` the output `[\nx1\nx...]` lexes to a
token `x1` instead of `1`, so the indented output does not re-parse to the
same structure as the compact form. -/
theorem C8_counterexample :
    (dumps (.list [.int 1]) true (some (.ofStr "x"))).map lexJson
      ≠ (dumps (.list [.int 1]) true Option.none).map lexJson := by
  have h1 : dumps (.list [.int 1]) true (some (.ofStr "x")) = .ok "[\nx1\n]" := rfl
  have h2 : dumps (.list [.int 1]) true Option.none = .ok "[1]" := rfl
  have l1 : lexJson "[\nx1\n]" = ["[", "x1", "]"] := by
    simp [lexJson, lexJsonAux, takeAtom, takeStringLit, isJsonWs, isJsonDelim]
    decide
  have l2 : lexJson "[1]" = ["[", "1", "]"] := by
    simp [lexJson, lexJsonAux, takeAtom, takeStringLit, isJsonWs, isJsonDelim]
    decide
  rw [h1, h2]
  simp only [Except.map, l1, l2, ne_eq, Except.ok.injEq]
  decide

/-- C8 (amended): `json_ensure_ascii` defaults to true; `jsonify_log_record`
passes the configured indent and ASCII flag through to the serializer; and for
indent settings that are an integer width or a whitespace-only indent string
(every integer indent qualifies): with `ensure_ascii=True` every character of
the output is ASCII, with `ensure_ascii=False` characters at or above `0x20`
other than `"` and `\` are emitted literally (shown also on the spec's
`{"msg": "héllo"}` example, escaped vs literal), and the output under any two
such indent settings lexes to the same token sequence, so the indented output
re-parses to the same structure as the compact form. -/
theorem C8_amended :
    (JsonFormatter.mkDefault.json_ensure_ascii = true) ∧
    (∀ (st : JsonFormatterState) (r : PyVal),
      (JsonFormatter.jsonify_log_record st r).indent = st.json_indent ∧
      (JsonFormatter.jsonify_log_record st r).ensure_ascii
        = st.json_ensure_ascii) ∧
    (∀ n : Int, indentWsOk (some (.ofInt n)) = true) ∧
    (∀ (v : PyVal) (ind : Option JsonIndent) (out : String),
      indentWsOk ind = true → dumps v true ind = .ok out →
      asciiStr out = true) ∧
    (∀ c : Char, 32 ≤ c.toNat → ¬c = '"' → ¬c = '\\' →
      escapeCharRaw c = String.singleton c) ∧
    (dumps (.dict [("msg", .str "héllo")]) true Option.none
      = .ok "\x7b\"msg\": \"h\\u00e9llo\"\x7d") ∧
    (dumps (.dict [("msg", .str "héllo")]) false Option.none
      = .ok "\x7b\"msg\": \"héllo\"\x7d") ∧
    (∀ (v : PyVal) (ea : Bool) (ind ind' : Option JsonIndent),
      indentWsOk ind = true → indentWsOk ind' = true →
      (dumps v ea ind).map lexJson = (dumps v ea ind').map lexJson) :=
  ⟨rfl, fun _ _ => ⟨rfl, rfl⟩, indentWsOk_ofInt, dumps_ascii,
   escapeCharRaw_literal, rfl, rfl, dumps_lex_indent⟩

/-- C8 (witness): the ASCII guarantee applied to the `{"msg": "héllo"}`
record, and the lex-equality applied to `[1]` under `indent=2` versus compact
output. -/
theorem C8_witness :
    asciiStr "\x7b\"msg\": \"h\\u00e9llo\"\x7d" = true ∧
    (dumps (.list [.int 1]) true (some (.ofInt 2))).map lexJson
      = (dumps (.list [.int 1]) true Option.none).map lexJson :=
  ⟨C8_amended.2.2.2.1 (.dict [("msg", .str "héllo")]) Option.none _ (by decide) rfl,
   C8_amended.2.2.2.2.2.2.2 (.list [.int 1]) true (some (.ofInt 2)) Option.none
     (by decide) (by decide)⟩

/-- C9: accessing the deprecated module attribute `RESERVED_ATTRS` through the
module `__getattr__` succeeds, returns exactly the value of the constant at
its new canonical location (`core.RESERVED_ATTRS`, passed in as a parameter
since the `core` module is a separate component), and the access emits exactly
one deprecation warning. -/
theorem C9_reserved_attrs_shim (α : Type) (core_RESERVED_ATTRS : α) :
    moduleGetattr core_RESERVED_ATTRS "RESERVED_ATTRS"
      = .ok (core_RESERVED_ATTRS,
        [⟨"RESERVED_ATTRS has been moved to pythonjsonlogger.core"⟩]) := rfl

/-- C10: for every attribute name other than `RESERVED_ATTRS`, the module
`__getattr__` (which Python invokes exactly for names the module does not
otherwise define) raises `AttributeError` naming the module and the
attribute, and never returns a value — so no deprecation warning is
emitted. -/
theorem C10_getattr_unknown (α : Type) (core_RESERVED_ATTRS : α) (name : String)
    (h : ¬name = "RESERVED_ATTRS") :
    moduleGetattr core_RESERVED_ATTRS name
      = .error (.attributeError
          ("module " ++ jsonModuleName ++ " has no attribute " ++ name)) ∧
    ∀ (v : α) (ws : List DeprecationWarning),
      moduleGetattr core_RESERVED_ATTRS name ≠ .ok (v, ws) := by
  constructor
  · simp [moduleGetattr, h]
  · intro v ws
    simp [moduleGetattr, h]

/-- C10 (witness): looking up the attribute `foo` raises the attribute
error. -/
theorem C10_witness :
    moduleGetattr (0 : Nat) "foo"
      = .error (.attributeError
          ("module " ++ jsonModuleName ++ " has no attribute " ++ "foo")) ∧
    ∀ (v : Nat) (ws : List DeprecationWarning),
      moduleGetattr (0 : Nat) "foo" ≠ .ok (v, ws) :=
  C10_getattr_unknown Nat 0 "foo" (by decide)
